import Mathlib

/-!
Verification of the interval-editing core of the Family-Home-Schedule app.

The Python sources are embedded shallowly:
- `core/color_manager.py` (`ColorManager`) as a one-field structure with pure
  state-passing operations;
- `core/data_manager.py` (`DataManager`) as an association list of member
  records together with the six mutation operations; Python list indexing
  (including negative indices) is modelled by `pyResolveIdx`, Python's
  `list.sort()` on pairs by an insertion sort over the lexicographic order,
  and the `try/except` flow by an explicit result type `OpRes`;
- the pointer-up commit and the move-drag candidate computation of
  `gui/chart_canvas.py` (both snapshots of the file) as pure functions over
  rationals, with Python's `round` (round-half-to-even) as `pyRound`.
-/

/-- A schedule interval `(start_hour, end_hour)`, a Python tuple of numbers.
All values reaching the store through the UI are integers. -/
abbrev HourInterval := Int × Int

/-- Lexicographic comparison of intervals: the order Python's `list.sort()`
uses on 2-tuples of numbers. -/
def tupLe (a b : HourInterval) : Prop :=
  a.1 < b.1 ∨ (a.1 = b.1 ∧ a.2 ≤ b.2)

instance : DecidableRel tupLe := fun a b => by
  unfold tupLe; exact inferInstance

instance : IsTotal HourInterval tupLe := ⟨by intro a b; unfold tupLe; omega⟩

instance : IsTrans HourInterval tupLe := ⟨by intro a b c h1 h2; unfold tupLe at *; omega⟩

instance : IsAntisymm HourInterval tupLe :=
  ⟨by intro a b h1 h2; unfold tupLe at *; obtain ⟨x, y⟩ := a; obtain ⟨u, v⟩ := b
      simp only [Prod.mk.injEq]; omega⟩

/-- Python's `schedules.sort()`: sorts a list of tuples lexicographically.
A stable sort under a total antisymmetric order is determined by the order
alone, so insertion sort is an exact model. -/
def sortIntervals (l : List HourInterval) : List HourInterval :=
  List.insertionSort tupLe l

/-- Resolve a Python list index against a list of length `n`.
`some j` gives the effective non-negative position; `none` means the access
raises `IndexError`.  Python accepts `-n <= i < n`, with negative `i`
addressing position `n + i`. -/
def pyResolveIdx (n : Nat) (i : Int) : Option Nat :=
  if 0 ≤ i then
    if i < (n : Int) then some i.toNat else none
  else
    if -(n : Int) ≤ i then some (i + n).toNat else none

/-- Python 3 `round` to an integer: round half to even (banker's rounding).
`Rat.floor` is the floor function on `ℚ` (`Rat.floor_def`). -/
def pyRound (q : ℚ) : ℤ :=
  let f : ℤ := q.floor
  let r : ℚ := q - f
  if r < 1/2 then f
  else if 1/2 < r then f + 1
  else if f % 2 = 0 then f else f + 1

/-- `ColorManager.CHART_COLORS` from `core/color_manager.py`. -/
def CHART_COLORS : List String :=
  ["skyblue", "lightgreen", "salmon", "orchid", "gold",
   "lightcoral", "lightsteelblue", "palegreen", "sandybrown", "plum"]

/-- The `ColorManager` state: its only field is `current_color_index`
(initialised to 0 by the constructor). -/
structure ColorManager where
  current_color_index : Nat
deriving DecidableEq, Repr

/-- The freshly constructed `ColorManager()`. -/
def ColorManager.init : ColorManager := ⟨0⟩

/-- `ColorManager.get_next_color`: returns the palette entry at the current
index and advances the index modulo the palette size. -/
def get_next_color (cm : ColorManager) : String × ColorManager :=
  (CHART_COLORS.getD cm.current_color_index "",
   ⟨(cm.current_color_index + 1) % CHART_COLORS.length⟩)

/-- The scanning loop of `set_current_color_index_based_on_used_colors`:
starting from index `i`, advance while the index is in range and the palette
entry at it is in `used`. -/
def colorScan (used : List String) (i : Nat) : Nat :=
  if h : i < CHART_COLORS.length ∧ CHART_COLORS.getD i "" ∈ used then
    colorScan used (i + 1)
  else i
termination_by CHART_COLORS.length - i
decreasing_by omega

/-- `ColorManager.set_current_color_index_based_on_used_colors`: reset the
index to 0, scan past palette entries contained in `used`, and fall back to 0
if the scan exhausted the palette. -/
def set_current_color_index_based_on_used_colors
    (used : List String) (_cm : ColorManager) : ColorManager :=
  let i := colorScan used 0
  if CHART_COLORS.length ≤ i then ⟨0⟩ else ⟨i⟩

/-- A member record: the `{'schedules': [...], 'color': ...}` dict value in
`DataManager.family_members`. -/
structure MemberData where
  schedules : List HourInterval
  color : String
deriving DecidableEq, Repr

/-- The `DataManager` state: `family_members` is a Python dict keyed by member
name, modelled as an association list in insertion order (keys unique by
construction), plus the owned `ColorManager`.  Persistence (`save_data`) only
serialises this state, so it needs no model of its own. -/
structure DataManager where
  family_members : List (String × MemberData)
  color_manager : ColorManager
deriving DecidableEq, Repr

/-- Result classes of the store operations, standing for the distinct
`(success, message)` pairs the Python methods return: `ok` for
`(True, ...)`, the others for the distinct failure messages.  `indexError`
is the generic `except Exception` branch reached when `schedules[old_index]`
raises `IndexError`. -/
inductive OpRes where
  | ok
  | duplicateMember
  | memberNotFound
  | intervalNotFound
  | indexError
deriving DecidableEq, Repr

/-- Dict membership `name in self.family_members`. -/
def hasMember (dm : DataManager) (name : String) : Bool :=
  (dm.family_members.lookup name).isSome

/-- Dict lookup `self.family_members[name]` (as an `Option`). -/
def lookupMember (dm : DataManager) (name : String) : Option MemberData :=
  dm.family_members.lookup name

/-- In-place replacement of one member's schedule list
(`self.family_members[name]['schedules'] = s`). -/
def setSchedules (dm : DataManager) (name : String) (s : List HourInterval) :
    DataManager :=
  { dm with
    family_members := dm.family_members.map fun e =>
      if e.1 = name then (e.1, { e.2 with schedules := s }) else e }

/-- `DataManager.add_member`. -/
def add_member (dm : DataManager) (name : String) : OpRes × DataManager :=
  if hasMember dm name then
    (.duplicateMember, dm)
  else
    let (c, cm) := get_next_color dm.color_manager
    (.ok, { family_members := dm.family_members ++ [(name, ⟨[], c⟩)],
            color_manager := cm })

/-- `DataManager.delete_member`. -/
def delete_member (dm : DataManager) (name : String) : OpRes × DataManager :=
  if hasMember dm name then
    (.ok, { dm with
            family_members := dm.family_members.filter fun e => ¬(e.1 = name) })
  else
    (.memberNotFound, dm)

/-- `DataManager.add_schedule`. -/
def add_schedule (dm : DataManager) (name : String) (s e : Int) :
    OpRes × DataManager :=
  match lookupMember dm name with
  | none => (.memberNotFound, dm)
  | some mem =>
      (.ok, setSchedules dm name (sortIntervals (mem.schedules ++ [(s, e)])))

/-- `DataManager.clear_member_schedules`. -/
def clear_member_schedules (dm : DataManager) (name : String) :
    OpRes × DataManager :=
  match lookupMember dm name with
  | none => (.memberNotFound, dm)
  | some _ => (.ok, setSchedules dm name [])

/-- The body of `update_schedule` acting on one schedule list: the
identity-then-value removal, append of the new interval and re-sort, with the
`except` branches reflected in the result.  `old_index < len(schedules)` is
checked first; only then is `schedules[old_index]` evaluated (raising
`IndexError` when `old_index < -len`), and `schedules.remove` raises
`ValueError` when the value is absent. -/
def updateCore (s : List HourInterval) (old : HourInterval) (oldIndex : Int)
    (new : HourInterval) : OpRes × List HourInterval :=
  let valuePath : OpRes × List HourInterval :=
    if old ∈ s then (.ok, sortIntervals (s.erase old ++ [new]))
    else (.intervalNotFound, s)
  if oldIndex < (s.length : Int) then
    match pyResolveIdx s.length oldIndex with
    | none => (.indexError, s)
    | some j =>
        if s.getD j (0, 0) = old then
          (.ok, sortIntervals (s.eraseIdx j ++ [new]))
        else valuePath
  else valuePath

/-- The body of `delete_schedule` acting on one schedule list: same
identity-then-value matching as `updateCore`, removal only (no re-sort). -/
def deleteCore (s : List HourInterval) (old : HourInterval) (oldIndex : Int) :
    OpRes × List HourInterval :=
  let valuePath : OpRes × List HourInterval :=
    if old ∈ s then (.ok, s.erase old)
    else (.intervalNotFound, s)
  if oldIndex < (s.length : Int) then
    match pyResolveIdx s.length oldIndex with
    | none => (.indexError, s)
    | some j =>
        if s.getD j (0, 0) = old then (.ok, s.eraseIdx j)
        else valuePath
  else valuePath

/-- `DataManager.update_schedule`.  On any failure the schedule list has not
been touched (the exception fires before any mutation), so the state is
returned unchanged. -/
def update_schedule (dm : DataManager) (name : String) (old : HourInterval)
    (oldIndex : Int) (new : HourInterval) : OpRes × DataManager :=
  match lookupMember dm name with
  | none => (.memberNotFound, dm)
  | some mem =>
      match updateCore mem.schedules old oldIndex new with
      | (.ok, s) => (.ok, setSchedules dm name s)
      | (r, _) => (r, dm)

/-- `DataManager.delete_schedule`. -/
def delete_schedule (dm : DataManager) (name : String) (old : HourInterval)
    (oldIndex : Int) : OpRes × DataManager :=
  match lookupMember dm name with
  | none => (.memberNotFound, dm)
  | some mem =>
      match deleteCore mem.schedules old oldIndex with
      | (.ok, s) => (.ok, setSchedules dm name s)
      | (r, _) => (r, dm)

/-- The snap granularity `snap_interval = 1.0` of `ChartCanvas.drag_motion`. -/
def snapInterval : ℚ := 1

/-- The move branch of `ChartCanvas.drag_motion`
(`src/FamilyscheduleApp/gui/chart_canvas.py`): from the raw pointer hour
`raw` (pixel position converted through the time axis) and the captured
original interval, compute the candidate interval shown during the drag.
`round(x / snap) * snap` snapping, duration held from the original, clamps
at 0 and 24 exactly as in the source. -/
def drag_motion_move (raw : ℚ) (orig : HourInterval) : ℚ × ℚ :=
  let ns0 : ℚ := (pyRound (raw / snapInterval) : ℚ) * snapInterval
  let duration : ℚ := (orig.2 : ℚ) - (orig.1 : ℚ)
  let ns1 : ℚ := max 0 ns0
  let ne1 : ℚ := ns1 + duration
  if 24 < ne1 then
    let ne2 : ℚ := 24
    let ns2 : ℚ := ne2 - duration
    if ns2 < 0 then (0, 0 + duration) else (ns2, ne2)
  else (ns1, ne1)

/-- The commit computation of `ChartCanvas.end_drag`
(`src/FamilyscheduleApp/gui/chart_canvas.py`, lines 422-431): round both raw
hours, clamp the start below at 0 and the end above at 24, and force
`end = start + 1` when `end <= start`.  No re-clamp follows the forcing. -/
def end_drag_commit (rawS rawE : ℚ) : HourInterval :=
  let s0 := pyRound rawS
  let e0 := pyRound rawE
  let s1 := max 0 s0
  let e1 := min 24 e0
  if e1 ≤ s1 then (s1, s1 + 1) else (s1, e1)

/-- Drag modes of the controller. -/
inductive DragMode where
  | move
  | resizeLeft
  | resizeRight
deriving DecidableEq, Repr

/-- The commit computation of `ChartCanvas.end_drag` in the older snapshot
(`src/gui/chart_canvas.py`, lines 323-339): round, clamp start below / end
above, and when `start >= end` pull the start back for a resize-left drag or
push the end out otherwise, re-clamping both endpoints afterwards. -/
def end_drag_commit_old (mode : DragMode) (rawS rawE : ℚ) : HourInterval :=
  let s1 := max 0 (pyRound rawS)
  let e1 := min 24 (pyRound rawE)
  if e1 ≤ s1 then
    match mode with
    | .resizeLeft => (max 0 (e1 - 1), min 24 e1)
    | _ => (max 0 s1, min 24 (s1 + 1))
  else (s1, e1)

/-- The store side of `ChartCanvas.end_drag`
(`src/FamilyscheduleApp/gui/chart_canvas.py`, lines 442-451): if the rounded
candidate equals the captured original schedule, the `DataManager` is not
called; otherwise `update_schedule` runs. -/
def end_drag_store (dm : DataManager) (name : String) (old : HourInterval)
    (oldIndex : Int) (rawS rawE : ℚ) : DataManager :=
  if end_drag_commit rawS rawE = old then dm
  else (update_schedule dm name old oldIndex (end_drag_commit rawS rawE)).2

/-- A schedule list sorted ascending by start hour. -/
def sortedByStart (l : List HourInterval) : Prop :=
  l.Pairwise fun a b => a.1 ≤ b.1

instance (l : List HourInterval) : Decidable (sortedByStart l) := by
  unfold sortedByStart; exact inferInstance

/-- Every member's schedule list in the store is sorted ascending by start. -/
def SortedStore (dm : DataManager) : Prop :=
  ∀ e ∈ dm.family_members, sortedByStart e.2.schedules

instance (dm : DataManager) : Decidable (SortedStore dm) := by
  unfold SortedStore; exact inferInstance

/-- The allocator state after `k` calls of `get_next_color` on a freshly
constructed `ColorManager`. -/
def stateAfter : Nat → ColorManager
  | 0 => ColorManager.init
  | k + 1 => (get_next_color (stateAfter k)).2

/-- The colour returned by call number `k + 1` of `get_next_color` on a
freshly constructed `ColorManager` (`k` calls have already happened). -/
def nthCall (k : Nat) : String :=
  (get_next_color (stateAfter k)).1

/-- A one-member sample store used in concrete checks. -/
def aliceStore : DataManager :=
  ⟨[("Alice", ⟨[(1, 2)], "skyblue"⟩)], ⟨1⟩⟩

/-- A two-member sample store used in concrete checks. -/
def familyStore : DataManager :=
  ⟨[("Alice", ⟨[(1, 2), (9, 17)], "skyblue"⟩),
    ("Bob", ⟨[(3, 4)], "lightgreen"⟩)], ⟨2⟩⟩

/-! ### Helper lemmas -/

theorem sortIntervals_sorted (l : List HourInterval) :
    List.Sorted tupLe (sortIntervals l) :=
  List.sorted_insertionSort tupLe l

theorem sortedByStart_sortIntervals (l : List HourInterval) :
    sortedByStart (sortIntervals l) :=
  (sortIntervals_sorted l).imp (by intro a b h; unfold tupLe at h; omega)

theorem sortIntervals_perm (l : List HourInterval) :
    List.Perm (sortIntervals l) l :=
  List.perm_insertionSort tupLe l

theorem sortIntervals_eq_of_perm {l₁ l₂ : List HourInterval}
    (h : List.Perm l₁ l₂) : sortIntervals l₁ = sortIntervals l₂ :=
  List.eq_of_perm_of_sorted
    (((sortIntervals_perm l₁).trans h).trans (sortIntervals_perm l₂).symm)
    (sortIntervals_sorted l₁) (sortIntervals_sorted l₂)

theorem sortedByStart_sublist {l₁ l₂ : List HourInterval}
    (hs : List.Sublist l₁ l₂) (h : sortedByStart l₂) : sortedByStart l₁ :=
  List.Pairwise.sublist hs h

/-- `l ~ a :: l.erase a` for the ambient `BEq` on pairs. -/
theorem perm_cons_erase_pair {a : HourInterval} :
    ∀ {l : List HourInterval}, a ∈ l → List.Perm l (a :: l.erase a) := by
  intro l
  induction l with
  | nil => intro h; cases h
  | cons b t ih =>
      intro h
      by_cases hba : b = a
      · subst hba; simp [List.erase_cons]
      · have hmem : a ∈ t := by
          cases h with
          | head => exact absurd rfl hba
          | tail _ h => exact h
        have hb : (b == a) = false := by simp [hba]
        rw [List.erase_cons, hb]
        exact ((ih hmem).cons b).trans (List.Perm.swap a b _)

/-- Removing the element at a position holding value `old` is, up to
permutation, the removal of the first occurrence of `old`. -/
theorem eraseIdx_perm_erase {s : List HourInterval} {old : HourInterval}
    {j : Nat} (hj : j < s.length) (hv : s.getD j (0, 0) = old) :
    List.Perm (s.eraseIdx j) (s.erase old) := by
  have hget : s[j] = old := by
    rw [← List.getD_eq_getElem s (0, 0) hj]; exact hv
  have hmem : old ∈ s := hget ▸ List.getElem_mem hj
  have hsplit : s = s.take j ++ old :: s.drop (j + 1) := by
    conv_lhs => rw [← List.take_append_drop j s, List.drop_eq_getElem_cons hj, hget]
  have h1 : List.Perm s (old :: s.eraseIdx j) := by
    rw [List.eraseIdx_eq_take_drop_succ]
    conv_lhs => rw [hsplit]
    exact List.perm_middle
  exact (h1.symm.trans (perm_cons_erase_pair hmem)).cons_inv

theorem pyResolveIdx_nonneg {n : Nat} {i : Int} (h0 : 0 ≤ i)
    (h : i < (n : Int)) : pyResolveIdx n i = some i.toNat := by
  unfold pyResolveIdx; rw [if_pos h0, if_pos h]

theorem pyResolveIdx_neg {n : Nat} {i : Int} (hn : -(n : Int) ≤ i)
    (h : i < 0) : pyResolveIdx n i = some (i + n).toNat := by
  unfold pyResolveIdx; rw [if_neg (by omega), if_pos hn]

theorem pyResolveIdx_none {n : Nat} {i : Int} (h : i < -(n : Int)) :
    pyResolveIdx n i = none := by
  unfold pyResolveIdx; rw [if_neg (by omega), if_neg (by omega)]

/-! Branch equations of `updateCore` and `deleteCore`. -/

theorem updateCore_identity {s : List HourInterval} {old : HourInterval}
    {oldIndex : Int} {j : Nat} (new : HourInterval)
    (h1 : oldIndex < (s.length : Int))
    (hidx : pyResolveIdx s.length oldIndex = some j)
    (h2 : s.getD j (0, 0) = old) :
    updateCore s old oldIndex new =
      (.ok, sortIntervals (s.eraseIdx j ++ [new])) := by
  simp only [updateCore, if_pos h1, hidx]; rw [if_pos h2]

theorem updateCore_value_miss {s : List HourInterval} {old : HourInterval}
    {oldIndex : Int} {j : Nat} (new : HourInterval)
    (h1 : oldIndex < (s.length : Int))
    (hidx : pyResolveIdx s.length oldIndex = some j)
    (h2 : ¬ s.getD j (0, 0) = old) (h3 : old ∈ s) :
    updateCore s old oldIndex new =
      (.ok, sortIntervals (s.erase old ++ [new])) := by
  simp only [updateCore, if_pos h1, hidx]; rw [if_neg h2, if_pos h3]

theorem updateCore_value_ge {s : List HourInterval} {old : HourInterval}
    {oldIndex : Int} (new : HourInterval)
    (h1 : ¬ oldIndex < (s.length : Int)) (h3 : old ∈ s) :
    updateCore s old oldIndex new =
      (.ok, sortIntervals (s.erase old ++ [new])) := by
  simp only [updateCore, if_neg h1]; rw [if_pos h3]

theorem updateCore_nf_miss {s : List HourInterval} {old : HourInterval}
    {oldIndex : Int} {j : Nat} (new : HourInterval)
    (h1 : oldIndex < (s.length : Int))
    (hidx : pyResolveIdx s.length oldIndex = some j)
    (h2 : ¬ s.getD j (0, 0) = old) (h3 : old ∉ s) :
    updateCore s old oldIndex new = (.intervalNotFound, s) := by
  simp only [updateCore, if_pos h1, hidx]; rw [if_neg h2, if_neg h3]

theorem updateCore_nf_ge {s : List HourInterval} {old : HourInterval}
    {oldIndex : Int} (new : HourInterval)
    (h1 : ¬ oldIndex < (s.length : Int)) (h3 : old ∉ s) :
    updateCore s old oldIndex new = (.intervalNotFound, s) := by
  simp only [updateCore, if_neg h1]; rw [if_neg h3]

theorem updateCore_ierr {s : List HourInterval} {old : HourInterval}
    {oldIndex : Int} (new : HourInterval)
    (h1 : oldIndex < (s.length : Int))
    (hidx : pyResolveIdx s.length oldIndex = none) :
    updateCore s old oldIndex new = (.indexError, s) := by
  simp only [updateCore, if_pos h1, hidx]

theorem deleteCore_identity {s : List HourInterval} {old : HourInterval}
    {oldIndex : Int} {j : Nat}
    (h1 : oldIndex < (s.length : Int))
    (hidx : pyResolveIdx s.length oldIndex = some j)
    (h2 : s.getD j (0, 0) = old) :
    deleteCore s old oldIndex = (.ok, s.eraseIdx j) := by
  simp only [deleteCore, if_pos h1, hidx]; rw [if_pos h2]

theorem deleteCore_value_miss {s : List HourInterval} {old : HourInterval}
    {oldIndex : Int} {j : Nat}
    (h1 : oldIndex < (s.length : Int))
    (hidx : pyResolveIdx s.length oldIndex = some j)
    (h2 : ¬ s.getD j (0, 0) = old) (h3 : old ∈ s) :
    deleteCore s old oldIndex = (.ok, s.erase old) := by
  simp only [deleteCore, if_pos h1, hidx]; rw [if_neg h2, if_pos h3]

theorem deleteCore_value_ge {s : List HourInterval} {old : HourInterval}
    {oldIndex : Int}
    (h1 : ¬ oldIndex < (s.length : Int)) (h3 : old ∈ s) :
    deleteCore s old oldIndex = (.ok, s.erase old) := by
  simp only [deleteCore, if_neg h1]; rw [if_pos h3]

theorem deleteCore_nf_miss {s : List HourInterval} {old : HourInterval}
    {oldIndex : Int} {j : Nat}
    (h1 : oldIndex < (s.length : Int))
    (hidx : pyResolveIdx s.length oldIndex = some j)
    (h2 : ¬ s.getD j (0, 0) = old) (h3 : old ∉ s) :
    deleteCore s old oldIndex = (.intervalNotFound, s) := by
  simp only [deleteCore, if_pos h1, hidx]; rw [if_neg h2, if_neg h3]

theorem deleteCore_nf_ge {s : List HourInterval} {old : HourInterval}
    {oldIndex : Int}
    (h1 : ¬ oldIndex < (s.length : Int)) (h3 : old ∉ s) :
    deleteCore s old oldIndex = (.intervalNotFound, s) := by
  simp only [deleteCore, if_neg h1]; rw [if_neg h3]

theorem deleteCore_ierr {s : List HourInterval} {old : HourInterval}
    {oldIndex : Int}
    (h1 : oldIndex < (s.length : Int))
    (hidx : pyResolveIdx s.length oldIndex = none) :
    deleteCore s old oldIndex = (.indexError, s) := by
  simp only [deleteCore, if_pos h1, hidx]

/-- The schedule list produced by `updateCore` is either untouched or the
output of a sort. -/
theorem updateCore_snd (s : List HourInterval) (old : HourInterval)
    (oldIndex : Int) (new : HourInterval) :
    (updateCore s old oldIndex new).2 = s ∨
      ∃ l, (updateCore s old oldIndex new).2 = sortIntervals l := by
  by_cases h1 : oldIndex < (s.length : Int)
  · cases hidx : pyResolveIdx s.length oldIndex with
    | none => left; rw [updateCore_ierr new h1 hidx]
    | some j =>
        by_cases h2 : s.getD j (0, 0) = old
        · exact Or.inr ⟨_, by rw [updateCore_identity new h1 hidx h2]⟩
        · by_cases h3 : old ∈ s
          · exact Or.inr ⟨_, by rw [updateCore_value_miss new h1 hidx h2 h3]⟩
          · left; rw [updateCore_nf_miss new h1 hidx h2 h3]
  · by_cases h3 : old ∈ s
    · exact Or.inr ⟨_, by rw [updateCore_value_ge new h1 h3]⟩
    · left; rw [updateCore_nf_ge new h1 h3]

/-- The schedule list produced by `deleteCore` is a sublist of the input. -/
theorem deleteCore_sublist (s : List HourInterval) (old : HourInterval)
    (oldIndex : Int) :
    List.Sublist (deleteCore s old oldIndex).2 s := by
  by_cases h1 : oldIndex < (s.length : Int)
  · cases hidx : pyResolveIdx s.length oldIndex with
    | none => rw [deleteCore_ierr h1 hidx]
    | some j =>
        by_cases h2 : s.getD j (0, 0) = old
        · rw [deleteCore_identity h1 hidx h2]
          exact List.eraseIdx_sublist s j
        · by_cases h3 : old ∈ s
          · rw [deleteCore_value_miss h1 hidx h2 h3]
            exact List.erase_sublist old s
          · rw [deleteCore_nf_miss h1 hidx h2 h3]
  · by_cases h3 : old ∈ s
    · rw [deleteCore_value_ge h1 h3]
      exact List.erase_sublist old s
    · rw [deleteCore_nf_ge h1 h3]

/-! Color scan lemmas. -/

theorem colorScan_spec (used : List String) :
    ∀ i, i ≤ CHART_COLORS.length →
      i ≤ colorScan used i ∧ colorScan used i ≤ CHART_COLORS.length ∧
      (∀ j, i ≤ j → j < colorScan used i → CHART_COLORS.getD j "" ∈ used) ∧
      (colorScan used i < CHART_COLORS.length →
        CHART_COLORS.getD (colorScan used i) "" ∉ used) := by
  intro i
  induction i using colorScan.induct used with
  | case1 i hcond ih =>
      intro hle
      rw [colorScan, dif_pos hcond]
      have h2 := ih (by omega)
      refine ⟨by omega, h2.2.1, ?_, h2.2.2.2⟩
      intro j hij hj
      by_cases hji : j = i
      · exact hji ▸ hcond.2
      · exact h2.2.2.1 j (by omega) hj
  | case2 i hcond =>
      intro hle
      rw [colorScan, dif_neg hcond]
      push_neg at hcond
      exact ⟨le_refl i, hle, fun j hij hj => absurd hij (by omega),
        fun hlt => hcond hlt⟩

/-! Lookup lemmas for association lists. -/

theorem lookup_append_self {l : List (String × MemberData)} {name : String}
    {v : MemberData} (h : l.lookup name = none) :
    (l ++ [(name, v)]).lookup name = some v := by
  induction l with
  | nil => simp [List.lookup]
  | cons a t ih =>
      rw [List.cons_append, List.lookup]
      rw [List.lookup] at h
      by_cases hk : name = a.1
      · have hb : (name == a.1) = true := by simp [hk]
        simp only [hb] at h
        cases h
      · have hb : (name == a.1) = false := by simp [hk]
        simp only [hb] at h ⊢
        exact ih h

theorem lookup_append_ne {l : List (String × MemberData)} {k name : String}
    {v : MemberData} (h : ¬ k = name) :
    (l ++ [(name, v)]).lookup k = l.lookup k := by
  induction l with
  | nil =>
      have hb : (k == name) = false := by simp [h]
      simp [List.lookup, hb]
  | cons a t ih =>
      rw [List.cons_append, List.lookup, List.lookup]
      by_cases hk : k = a.1
      · have hb : (k == a.1) = true := by simp [hk]
        simp only [hb]
      · have hb : (k == a.1) = false := by simp [hk]
        simp only [hb]
        exact ih

/-! Store plumbing lemmas. -/

theorem setSchedules_mem {dm : DataManager} {name : String}
    {s : List HourInterval} {e : String × MemberData}
    (he : e ∈ (setSchedules dm name s).family_members) :
    e.2.schedules = s ∨ e ∈ dm.family_members := by
  simp only [setSchedules, List.mem_map] at he
  obtain ⟨a, ha, rfl⟩ := he
  by_cases h : a.1 = name
  · left; rw [if_pos h]
  · right; rw [if_neg h]; exact ha

theorem SortedStore_setSchedules {dm : DataManager} {name : String}
    {s : List HourInterval} (hdm : SortedStore dm) (hs : sortedByStart s) :
    SortedStore (setSchedules dm name s) := fun e he =>
  (setSchedules_mem he).elim (fun h => h ▸ hs) (fun h => hdm e h)

theorem update_schedule_ok {dm : DataManager} {name : String}
    {mem : MemberData} {old : HourInterval} {i : Int} {new : HourInterval}
    {s1 : List HourInterval} (h : lookupMember dm name = some mem)
    (hc : updateCore mem.schedules old i new = (.ok, s1)) :
    update_schedule dm name old i new = (.ok, setSchedules dm name s1) := by
  unfold update_schedule; rw [h]; dsimp only; rw [hc]

theorem update_schedule_err {dm : DataManager} {name : String}
    {mem : MemberData} {old : HourInterval} {i : Int} {new : HourInterval}
    {r : OpRes} {s1 : List HourInterval} (h : lookupMember dm name = some mem)
    (hc : updateCore mem.schedules old i new = (r, s1)) (hr : ¬ r = .ok) :
    update_schedule dm name old i new = (r, dm) := by
  unfold update_schedule; rw [h]; dsimp only; rw [hc]
  cases r with
  | ok => exact absurd rfl hr
  | duplicateMember => rfl
  | memberNotFound => rfl
  | intervalNotFound => rfl
  | indexError => rfl

theorem delete_schedule_ok {dm : DataManager} {name : String}
    {mem : MemberData} {old : HourInterval} {i : Int}
    {s1 : List HourInterval} (h : lookupMember dm name = some mem)
    (hc : deleteCore mem.schedules old i = (.ok, s1)) :
    delete_schedule dm name old i = (.ok, setSchedules dm name s1) := by
  unfold delete_schedule; rw [h]; dsimp only; rw [hc]

theorem delete_schedule_err {dm : DataManager} {name : String}
    {mem : MemberData} {old : HourInterval} {i : Int}
    {r : OpRes} {s1 : List HourInterval} (h : lookupMember dm name = some mem)
    (hc : deleteCore mem.schedules old i = (r, s1)) (hr : ¬ r = .ok) :
    delete_schedule dm name old i = (r, dm) := by
  unfold delete_schedule; rw [h]; dsimp only; rw [hc]
  cases r with
  | ok => exact absurd rfl hr
  | duplicateMember => rfl
  | memberNotFound => rfl
  | intervalNotFound => rfl
  | indexError => rfl

/-! Evaluation lemmas for `pyRound` on concrete rationals. -/

theorem ratFloor_eq_intFloor (q : ℚ) : q.floor = ⌊q⌋ :=
  (Rat.floor_def' q).trans Rat.floor_def.symm

theorem pyRound_of_lt {q : ℚ} {f : ℤ} (hf : ⌊q⌋ = f) (h : q - f < 1/2) :
    pyRound q = f := by
  unfold pyRound
  rw [ratFloor_eq_intFloor, hf, if_pos h]

theorem pyRound_of_gt {q : ℚ} {f : ℤ} (hf : ⌊q⌋ = f) (h : 1/2 < q - f) :
    pyRound q = f + 1 := by
  unfold pyRound
  rw [ratFloor_eq_intFloor, hf, if_neg (by linarith), if_pos h]

theorem pyRound_tw_six : pyRound (118/5) = 24 := by
  have h : pyRound (118/5) = 23 + 1 :=
    pyRound_of_gt (by rw [Int.floor_eq_iff]; norm_num) (by norm_num)
  rw [h]; norm_num

theorem pyRound_tw_four_pt_two : pyRound (121/5) = 24 :=
  pyRound_of_lt (by rw [Int.floor_eq_iff]; norm_num) (by norm_num)

theorem pyRound_eight_pt_six : pyRound (43/5) = 9 := by
  have h : pyRound (43/5) = 8 + 1 :=
    pyRound_of_gt (by rw [Int.floor_eq_iff]; norm_num) (by norm_num)
  rw [h]; norm_num

theorem pyRound_sevent_pt_two : pyRound (86/5) = 17 :=
  pyRound_of_lt (by rw [Int.floor_eq_iff]; norm_num) (by norm_num)

theorem pyRound_nine : pyRound 9 = 9 :=
  pyRound_of_lt (by norm_num) (by norm_num)

theorem pyRound_seventeen : pyRound 17 = 17 :=
  pyRound_of_lt (by norm_num) (by norm_num)

/-- After `k` fresh calls the allocator index is `k` modulo the palette
size. -/
theorem stateAfter_idx (k : Nat) :
    (stateAfter k).current_color_index = k % CHART_COLORS.length := by
  induction k with
  | zero => rfl
  | succ k ih =>
      show ((stateAfter k).current_color_index + 1) % CHART_COLORS.length =
        (k + 1) % CHART_COLORS.length
      rw [ih]
      have hlen : CHART_COLORS.length = 10 := rfl
      rw [hlen]
      omega

/-- A successful `lookup` pins an actual entry of the association list. -/
theorem lookup_some_mem {l : List (String × MemberData)} {k : String}
    {v : MemberData} (h : l.lookup k = some v) : (k, v) ∈ l := by
  induction l with
  | nil => cases h
  | cons a t ih =>
      rw [List.lookup] at h
      by_cases hk : k = a.1
      · have hb : (k == a.1) = true := by simp [hk]
        simp only [hb] at h
        cases h
        have he : (k, a.2) = a := by rw [hk]
        rw [he]
        exact List.mem_cons_self a t
      · have hb : (k == a.1) = false := by simp [hk]
        simp only [hb] at h
        exact List.mem_cons_of_mem a (ih h)

/-! Full-result lemmas for `updateCore` and `deleteCore`, keyed on the sign
and range of the Python index. -/

theorem updateCore_result_pos {s : List HourInterval} {old : HourInterval}
    {oldIndex : Int} (new : HourInterval) (h0 : 0 ≤ oldIndex)
    (h1 : oldIndex < (s.length : Int))
    (h2 : s.getD oldIndex.toNat (0, 0) = old) :
    updateCore s old oldIndex new =
      (.ok, sortIntervals (s.eraseIdx oldIndex.toNat ++ [new])) :=
  updateCore_identity new h1 (pyResolveIdx_nonneg h0 h1) h2

theorem updateCore_result_neg {s : List HourInterval} {old : HourInterval}
    {oldIndex : Int} (new : HourInterval)
    (hn : -(s.length : Int) ≤ oldIndex) (hi : oldIndex < 0)
    (h2 : s.getD (oldIndex + s.length).toNat (0, 0) = old) :
    updateCore s old oldIndex new =
      (.ok, sortIntervals (s.eraseIdx (oldIndex + s.length).toNat ++ [new])) :=
  updateCore_identity new (by omega) (pyResolveIdx_neg hn hi) h2

theorem updateCore_result_mem {s : List HourInterval} {old : HourInterval}
    {oldIndex : Int} (new : HourInterval)
    (hn : -(s.length : Int) ≤ oldIndex) (h3 : old ∈ s) :
    updateCore s old oldIndex new =
      (.ok, sortIntervals (s.erase old ++ [new])) := by
  by_cases h1 : oldIndex < (s.length : Int)
  · by_cases h0 : 0 ≤ oldIndex
    · have hj : oldIndex.toNat < s.length := by omega
      by_cases h2 : s.getD oldIndex.toNat (0, 0) = old
      · rw [updateCore_identity new h1 (pyResolveIdx_nonneg h0 h1) h2]
        exact congrArg _
          (sortIntervals_eq_of_perm ((eraseIdx_perm_erase hj h2).append_right [new]))
      · exact updateCore_value_miss new h1 (pyResolveIdx_nonneg h0 h1) h2 h3
    · have hi : oldIndex < 0 := by omega
      have hj : (oldIndex + s.length).toNat < s.length := by omega
      by_cases h2 : s.getD (oldIndex + s.length).toNat (0, 0) = old
      · rw [updateCore_identity new h1 (pyResolveIdx_neg hn hi) h2]
        exact congrArg _
          (sortIntervals_eq_of_perm ((eraseIdx_perm_erase hj h2).append_right [new]))
      · exact updateCore_value_miss new h1 (pyResolveIdx_neg hn hi) h2 h3
  · exact updateCore_value_ge new h1 h3

theorem getD_mem_of_lt {s : List HourInterval} {j : Nat} (hj : j < s.length) :
    s.getD j (0, 0) ∈ s := by
  rw [List.getD_eq_getElem s (0, 0) hj]
  exact List.getElem_mem hj

theorem updateCore_result_notmem {s : List HourInterval} {old : HourInterval}
    {oldIndex : Int} (new : HourInterval)
    (hn : -(s.length : Int) ≤ oldIndex) (h3 : old ∉ s) :
    updateCore s old oldIndex new = (.intervalNotFound, s) := by
  by_cases h1 : oldIndex < (s.length : Int)
  · by_cases h0 : 0 ≤ oldIndex
    · have hj : oldIndex.toNat < s.length := by omega
      have h2 : ¬ s.getD oldIndex.toNat (0, 0) = old := fun he =>
        h3 (he ▸ getD_mem_of_lt hj)
      exact updateCore_nf_miss new h1 (pyResolveIdx_nonneg h0 h1) h2 h3
    · have hi : oldIndex < 0 := by omega
      have hj : (oldIndex + s.length).toNat < s.length := by omega
      have h2 : ¬ s.getD (oldIndex + s.length).toNat (0, 0) = old := fun he =>
        h3 (he ▸ getD_mem_of_lt hj)
      exact updateCore_nf_miss new h1 (pyResolveIdx_neg hn hi) h2 h3
  · exact updateCore_nf_ge new h1 h3

theorem updateCore_result_ierr {s : List HourInterval} {old : HourInterval}
    {oldIndex : Int} (new : HourInterval)
    (h : oldIndex < -(s.length : Int)) :
    updateCore s old oldIndex new = (.indexError, s) :=
  updateCore_ierr new (by omega) (pyResolveIdx_none h)

theorem deleteCore_result_neg {s : List HourInterval} {old : HourInterval}
    {oldIndex : Int}
    (hn : -(s.length : Int) ≤ oldIndex) (hi : oldIndex < 0)
    (h2 : s.getD (oldIndex + s.length).toNat (0, 0) = old) :
    deleteCore s old oldIndex = (.ok, s.eraseIdx (oldIndex + s.length).toNat) :=
  deleteCore_identity (by omega) (pyResolveIdx_neg hn hi) h2

theorem deleteCore_result_notmem {s : List HourInterval} {old : HourInterval}
    {oldIndex : Int}
    (hn : -(s.length : Int) ≤ oldIndex) (h3 : old ∉ s) :
    deleteCore s old oldIndex = (.intervalNotFound, s) := by
  by_cases h1 : oldIndex < (s.length : Int)
  · by_cases h0 : 0 ≤ oldIndex
    · have hj : oldIndex.toNat < s.length := by omega
      have h2 : ¬ s.getD oldIndex.toNat (0, 0) = old := fun he =>
        h3 (he ▸ getD_mem_of_lt hj)
      exact deleteCore_nf_miss h1 (pyResolveIdx_nonneg h0 h1) h2 h3
    · have hi : oldIndex < 0 := by omega
      have hj : (oldIndex + s.length).toNat < s.length := by omega
      have h2 : ¬ s.getD (oldIndex + s.length).toNat (0, 0) = old := fun he =>
        h3 (he ▸ getD_mem_of_lt hj)
      exact deleteCore_nf_miss h1 (pyResolveIdx_neg hn hi) h2 h3
  · exact deleteCore_nf_ge h1 h3

theorem deleteCore_result_ierr {s : List HourInterval} {old : HourInterval}
    {oldIndex : Int} (h : oldIndex < -(s.length : Int)) :
    deleteCore s old oldIndex = (.indexError, s) :=
  deleteCore_ierr (by omega) (pyResolveIdx_none h)

/-! ### Claim theorems -/

/-- C6: for every set of used colours, `reseed` (that is,
`set_current_color_index_based_on_used_colors`) sets the internal index to
the smallest palette position whose colour is not in `usedColors`, scanning
from 0; if every palette entry is used the index is 0.  Consequently
`reseed({palette[2]})` followed by `nextColor()` returns `palette[0]`. -/
theorem C6_reseed_first_unused (used : List String) (cm : ColorManager) :
    (set_current_color_index_based_on_used_colors used cm).current_color_index
        < CHART_COLORS.length ∧
    (∀ j, j <
        (set_current_color_index_based_on_used_colors used cm).current_color_index →
      CHART_COLORS.getD j "" ∈ used) ∧
    (CHART_COLORS.getD
        (set_current_color_index_based_on_used_colors used cm).current_color_index ""
        ∉ used ∨
      ((set_current_color_index_based_on_used_colors used cm).current_color_index = 0 ∧
        ∀ c ∈ CHART_COLORS, c ∈ used)) ∧
    (get_next_color
        (set_current_color_index_based_on_used_colors
          [CHART_COLORS.getD 2 ""] cm)).1 = CHART_COLORS.getD 0 "" := by
  obtain ⟨h0le, hle, hall, hstop⟩ := colorScan_spec used 0 (Nat.zero_le _)
  have hex : (get_next_color
      (set_current_color_index_based_on_used_colors
        [CHART_COLORS.getD 2 ""] cm)).1 = CHART_COLORS.getD 0 "" := by
    unfold set_current_color_index_based_on_used_colors
    rw [colorScan, dif_neg (by decide)]
    rfl
  unfold set_current_color_index_based_on_used_colors
  dsimp only
  by_cases hfull : CHART_COLORS.length ≤ colorScan used 0
  · rw [if_pos hfull]
    dsimp only
    have hlen : colorScan used 0 = CHART_COLORS.length := by omega
    refine ⟨by decide, fun j hj => absurd hj (by omega), Or.inr ⟨rfl, ?_⟩, hex⟩
    intro c hc
    obtain ⟨j, hj, hjc⟩ := List.mem_iff_getElem.mp hc
    have hgc : CHART_COLORS.getD j "" = c := by
      rw [List.getD_eq_getElem _ "" hj, hjc]
    exact hgc ▸ hall j (Nat.zero_le j) (by omega)
  · rw [if_neg hfull]
    dsimp only
    exact ⟨by omega, fun j hj => hall j (Nat.zero_le j) hj,
      Or.inl (hstop (by omega)), hex⟩

/-- C6 witness: the index reseeded from a concrete one-colour used set
is in palette range, by the theorem applied at that input. -/
theorem C6_reseed_first_unused_witness :
    (set_current_color_index_based_on_used_colors ["skyblue"]
      ⟨4⟩).current_color_index < CHART_COLORS.length :=
  (C6_reseed_first_unused ["skyblue"] ⟨4⟩).1

/-- C7: starting from a fresh allocator, the first ten `get_next_color`
calls return exactly the palette in order (hence pairwise distinct colours,
the palette having no duplicates), the eleventh call returns `palette[0]`
again, and the call sequence is periodic with period the palette size. -/
theorem C7_next_color_cycle :
    (List.range CHART_COLORS.length).map nthCall = CHART_COLORS ∧
    CHART_COLORS.Nodup ∧
    nthCall CHART_COLORS.length = CHART_COLORS.getD 0 "" ∧
    ∀ k, nthCall (k + CHART_COLORS.length) = nthCall k := by
  refine ⟨by decide, by decide, by decide, ?_⟩
  intro k
  unfold nthCall get_next_color
  rw [stateAfter_idx, stateAfter_idx, Nat.add_mod_right]

/-- C8: `add_member` fails reporting a duplicate and leaves the store
unchanged when the name is already present; otherwise it succeeds, the new
member has an empty schedule list and the colour handed out by the
allocator's next-colour call, every other member is unchanged, and the
allocator advances. -/
theorem C8_add_member (dm : DataManager) (name : String) :
    (hasMember dm name = true → add_member dm name = (.duplicateMember, dm)) ∧
    (hasMember dm name = false →
      (add_member dm name).1 = .ok ∧
      lookupMember (add_member dm name).2 name =
        some ⟨[], (get_next_color dm.color_manager).1⟩ ∧
      (∀ other, ¬ other = name →
        lookupMember (add_member dm name).2 other = lookupMember dm other) ∧
      (add_member dm name).2.color_manager =
        (get_next_color dm.color_manager).2) := by
  constructor
  · intro h
    unfold add_member
    rw [if_pos h]
  · intro h
    have hnone : dm.family_members.lookup name = none := by
      unfold hasMember at h
      cases hl : dm.family_members.lookup name with
      | none => rfl
      | some v => rw [hl] at h; cases h
    have hres : add_member dm name =
        (.ok, { family_members :=
                  dm.family_members ++
                    [(name, ⟨[], (get_next_color dm.color_manager).1⟩)],
                color_manager := (get_next_color dm.color_manager).2 }) := by
      unfold add_member
      rw [if_neg (by rw [h]; exact Bool.false_ne_true)]
    refine ⟨by rw [hres], ?_, ?_, by rw [hres]⟩
    · rw [hres]
      exact lookup_append_self hnone
    · intro other ho
      rw [hres]
      exact lookup_append_ne ho

/-- C8 witness: the theorem applied at concrete stores, on the duplicate
side and on the fresh side. -/
theorem C8_add_member_witness :
    add_member aliceStore "Alice" = (.duplicateMember, aliceStore) ∧
    lookupMember (add_member aliceStore "Bob").2 "Bob" =
      some ⟨[], (get_next_color aliceStore.color_manager).1⟩ :=
  ⟨(C8_add_member aliceStore "Alice").1 (by decide),
   (((C8_add_member aliceStore "Bob").2 (by decide)).2).1⟩

/-- C1 counterexample: with Alice's list `[(1,2)]`, `oldInterval = (1,2)`
present in the list and `oldIndex = -2`, the claim's value-fallback case
predicts success; the code instead evaluates `schedules[-2]`, raises
`IndexError` and fails through the generic `except` branch with no change. -/
theorem C1_counterexample :
    ((1, 2) : HourInterval) ∈ [((1, 2) : HourInterval)] ∧
    ¬ (0 : Int) ≤ -2 ∧
    lookupMember aliceStore "Alice" = some ⟨[(1, 2)], "skyblue"⟩ ∧
    update_schedule aliceStore "Alice" (1, 2) (-2) (3, 4) =
      (.indexError, aliceStore) ∧
    ¬ (update_schedule aliceStore "Alice" (1, 2) (-2) (3, 4)).1 = .ok := by
  decide

/-- C1 (amended): for a member present with list `s`,
`update_schedule(name, old, oldIndex, new)` behaves as follows.
(a) If `0 ≤ oldIndex < |s|` and `s[oldIndex] = old`: the element at
`oldIndex` is removed, `new` appended, the list re-sorted, success.
(b) If `oldIndex ≥ -|s|` (Python also resolves negative indices) and some
element equals `old`: success, and the final list equals the one obtained by
removing the first occurrence of `old`, appending `new` and re-sorting
(when the Python-resolved position holds `old` the removal happens there,
which yields the same sorted list).
(c) If `oldIndex ≥ -|s|` and no element equals `old`: the call fails with
`IntervalNotFound` and the store is unchanged.
(d) If `oldIndex < -|s|`: the index access raises, the call fails with the
generic update error instead of `IntervalNotFound`, and the store is
unchanged — even when `old` occurs in the list. -/
theorem C1_update_schedule_matching (dm : DataManager) (name : String)
    (mem : MemberData) (old new : HourInterval) (oldIndex : Int)
    (hmem : lookupMember dm name = some mem) :
    (0 ≤ oldIndex → oldIndex < (mem.schedules.length : Int) →
      mem.schedules.getD oldIndex.toNat (0, 0) = old →
      update_schedule dm name old oldIndex new =
        (.ok, setSchedules dm name
          (sortIntervals (mem.schedules.eraseIdx oldIndex.toNat ++ [new])))) ∧
    (-(mem.schedules.length : Int) ≤ oldIndex → old ∈ mem.schedules →
      update_schedule dm name old oldIndex new =
        (.ok, setSchedules dm name
          (sortIntervals (mem.schedules.erase old ++ [new])))) ∧
    (-(mem.schedules.length : Int) ≤ oldIndex → old ∉ mem.schedules →
      update_schedule dm name old oldIndex new = (.intervalNotFound, dm)) ∧
    (oldIndex < -(mem.schedules.length : Int) →
      update_schedule dm name old oldIndex new = (.indexError, dm)) := by
  refine ⟨?_, ?_, ?_, ?_⟩
  · intro h0 h1 h2
    exact update_schedule_ok hmem (updateCore_result_pos new h0 h1 h2)
  · intro hn h3
    exact update_schedule_ok hmem (updateCore_result_mem new hn h3)
  · intro hn h3
    exact update_schedule_err hmem (updateCore_result_notmem new hn h3)
      (by decide)
  · intro h
    exact update_schedule_err hmem (updateCore_result_ierr new h) (by decide)

/-- C1 witness: the identity case of the theorem at a concrete store, with
every hypothesis discharged by computation. -/
theorem C1_update_schedule_matching_witness :
    update_schedule aliceStore "Alice" (1, 2) 0 (10, 18) =
      (.ok, setSchedules aliceStore "Alice"
        (sortIntervals ([((1 : Int), (2 : Int))].eraseIdx 0 ++ [(10, 18)]))) :=
  (C1_update_schedule_matching aliceStore "Alice" ⟨[(1, 2)], "skyblue"⟩
    (1, 2) (10, 18) 0 (by decide)).1 (by decide) (by decide) (by decide)

/-- C2 counterexample: with Alice's list `[(1,2)]`, `old = (5,6)` matching
neither by identity nor by value and `oldIndex = -2`, the claim predicts an
`IntervalNotFound` failure for both operations; the code fails through the
generic `except` branch instead (the store is still unchanged). -/
theorem C2_counterexample :
    ((5, 6) : HourInterval) ∉ [((1, 2) : HourInterval)] ∧
    update_schedule aliceStore "Alice" (5, 6) (-2) (7, 8) =
      (.indexError, aliceStore) ∧
    delete_schedule aliceStore "Alice" (5, 6) (-2) =
      (.indexError, aliceStore) ∧
    ¬ (OpRes.indexError = .intervalNotFound) := by
  decide

/-- C2 (amended): for a member present with list `s`, if no element of `s`
equals the given old interval (so the identity and the value match both
fail), then `update_schedule` and `delete_schedule` both fail and return
the store exactly unchanged; the failure is `IntervalNotFound` when
`oldIndex ≥ -|s|`, and the generic error of the out-of-range index access
when `oldIndex < -|s|`. -/
theorem C2_not_found_atomic (dm : DataManager) (name : String)
    (mem : MemberData) (old new : HourInterval) (oldIndex : Int)
    (hmem : lookupMember dm name = some mem)
    (h3 : old ∉ mem.schedules) :
    (update_schedule dm name old oldIndex new).2 = dm ∧
    (delete_schedule dm name old oldIndex).2 = dm ∧
    (update_schedule dm name old oldIndex new).1 =
      (if oldIndex < -(mem.schedules.length : Int) then OpRes.indexError
       else .intervalNotFound) ∧
    (delete_schedule dm name old oldIndex).1 =
      (if oldIndex < -(mem.schedules.length : Int) then OpRes.indexError
       else .intervalNotFound) := by
  by_cases h : oldIndex < -(mem.schedules.length : Int)
  · have hcu : updateCore mem.schedules old oldIndex new =
        (.indexError, mem.schedules) := updateCore_result_ierr new h
    have hcd : deleteCore mem.schedules old oldIndex =
        (.indexError, mem.schedules) := deleteCore_result_ierr h
    have hu := update_schedule_err hmem hcu (by decide)
    have hd := delete_schedule_err hmem hcd (by decide)
    rw [hu, hd, if_pos h]
    exact ⟨rfl, rfl, rfl, rfl⟩
  · have hn : -(mem.schedules.length : Int) ≤ oldIndex := by omega
    have hcu : updateCore mem.schedules old oldIndex new =
        (.intervalNotFound, mem.schedules) :=
      updateCore_result_notmem new hn h3
    have hcd : deleteCore mem.schedules old oldIndex =
        (.intervalNotFound, mem.schedules) :=
      deleteCore_result_notmem hn h3
    have hu := update_schedule_err hmem hcu (by decide)
    have hd := delete_schedule_err hmem hcd (by decide)
    rw [hu, hd, if_neg h]
    exact ⟨rfl, rfl, rfl, rfl⟩

/-- C2 witness: the theorem at a concrete store and an in-range index,
yielding the `IntervalNotFound` failure with the store unchanged. -/
theorem C2_not_found_atomic_witness :
    (update_schedule aliceStore "Alice" (5, 6) 0 (7, 8)).2 = aliceStore :=
  (C2_not_found_atomic aliceStore "Alice" ⟨[(1, 2)], "skyblue"⟩
    (5, 6) (7, 8) 0 (by decide) (by decide)).1

/-- C10: the bounds check of the identity path only tests
`old_index < len`, so a negative `oldIndex` with `-|s| ≤ oldIndex < 0` whose
Python-resolved position `|s| + oldIndex` holds the old interval takes the
identity path: `delete_schedule` removes the element at that resolved
position (for `-1`, the last occurrence) rather than the first matching
occurrence, and `update_schedule` removes there before appending and
re-sorting.  The closing conjuncts exhibit `-1` on a list with a duplicated
value: the identity path removes the last occurrence, which differs from
what the first-occurrence fallback would produce. -/
theorem C10_negative_index_identity (dm : DataManager) (name : String)
    (mem : MemberData) (old new : HourInterval) (oldIndex : Int)
    (hmem : lookupMember dm name = some mem)
    (hn : -(mem.schedules.length : Int) ≤ oldIndex) (hi : oldIndex < 0)
    (h2 : mem.schedules.getD (oldIndex + mem.schedules.length).toNat (0, 0)
      = old) :
    delete_schedule dm name old oldIndex =
      (.ok, setSchedules dm name
        (mem.schedules.eraseIdx (oldIndex + mem.schedules.length).toNat)) ∧
    update_schedule dm name old oldIndex new =
      (.ok, setSchedules dm name
        (sortIntervals
          (mem.schedules.eraseIdx (oldIndex + mem.schedules.length).toNat
            ++ [new]))) ∧
    deleteCore [((1 : Int), (2 : Int)), (3, 4), (1, 2)] (1, 2) (-1) =
      (.ok, [(1, 2), (3, 4)]) ∧
    ¬ [((1 : Int), (2 : Int)), (3, 4), (1, 2)].erase (1, 2) =
      [(1, 2), (3, 4)] := by
  refine ⟨?_, ?_, by decide, by decide⟩
  · exact delete_schedule_ok hmem (deleteCore_result_neg hn hi h2)
  · exact update_schedule_ok hmem (updateCore_result_neg new hn hi h2)

/-- C10 witness: deleting with index `-1` at a concrete store removes the
entry at the resolved position. -/
theorem C10_negative_index_identity_witness :
    delete_schedule aliceStore "Alice" (1, 2) (-1) =
      (.ok, setSchedules aliceStore "Alice"
        ([((1 : Int), (2 : Int))].eraseIdx 0)) :=
  (C10_negative_index_identity aliceStore "Alice" ⟨[(1, 2)], "skyblue"⟩
    (1, 2) (0, 0) (-1) (by decide) (by decide) (by decide) (by decide)).1

/-- C3: if every member's interval list is sorted ascending by start, then
after any of the six store mutations every member's interval list is still
sorted ascending by start (failing calls leave the store unchanged, so the
property in particular holds after every successful mutation). -/
theorem C3_sorted_after_mutations (dm : DataManager) (name : String)
    (s e : Int) (old new : HourInterval) (oldIndex : Int)
    (hdm : SortedStore dm) :
    SortedStore (add_member dm name).2 ∧
    SortedStore (delete_member dm name).2 ∧
    SortedStore (add_schedule dm name s e).2 ∧
    SortedStore (clear_member_schedules dm name).2 ∧
    SortedStore (update_schedule dm name old oldIndex new).2 ∧
    SortedStore (delete_schedule dm name old oldIndex).2 := by
  refine ⟨?_, ?_, ?_, ?_, ?_, ?_⟩
  · unfold add_member
    by_cases h : hasMember dm name = true
    · rw [if_pos h]; exact hdm
    · rw [if_neg h]
      intro p hp
      rcases List.mem_append.mp hp with hp | hp
      · exact hdm p hp
      · rcases List.mem_singleton.mp hp with rfl
        exact List.Pairwise.nil
  · unfold delete_member
    by_cases h : hasMember dm name = true
    · rw [if_pos h]
      intro p hp
      exact hdm p (List.mem_of_mem_filter hp)
    · rw [if_neg h]; exact hdm
  · unfold add_schedule
    cases hl : lookupMember dm name with
    | none => exact hdm
    | some mem =>
        exact SortedStore_setSchedules hdm (sortedByStart_sortIntervals _)
  · unfold clear_member_schedules
    cases hl : lookupMember dm name with
    | none => exact hdm
    | some mem => exact SortedStore_setSchedules hdm List.Pairwise.nil
  · cases hl : lookupMember dm name with
    | none =>
        unfold update_schedule
        rw [hl]
        exact hdm
    | some mem =>
        have hsmem : sortedByStart mem.schedules :=
          hdm (name, mem) (lookup_some_mem hl)
        rcases hc : updateCore mem.schedules old oldIndex new with ⟨r, s1⟩
        have hsnd := updateCore_snd mem.schedules old oldIndex new
        rw [hc] at hsnd
        cases r with
        | ok =>
            rw [update_schedule_ok hl hc]
            refine SortedStore_setSchedules hdm ?_
            rcases hsnd with h | ⟨l, h⟩
            · have h2 : s1 = mem.schedules := h
              exact h2 ▸ hsmem
            · have h2 : s1 = sortIntervals l := h
              exact h2 ▸ sortedByStart_sortIntervals l
        | duplicateMember => rw [update_schedule_err hl hc (by decide)]; exact hdm
        | memberNotFound => rw [update_schedule_err hl hc (by decide)]; exact hdm
        | intervalNotFound => rw [update_schedule_err hl hc (by decide)]; exact hdm
        | indexError => rw [update_schedule_err hl hc (by decide)]; exact hdm
  · cases hl : lookupMember dm name with
    | none =>
        unfold delete_schedule
        rw [hl]
        exact hdm
    | some mem =>
        have hsmem : sortedByStart mem.schedules :=
          hdm (name, mem) (lookup_some_mem hl)
        rcases hc : deleteCore mem.schedules old oldIndex with ⟨r, s1⟩
        have hsub := deleteCore_sublist mem.schedules old oldIndex
        rw [hc] at hsub
        cases r with
        | ok =>
            rw [delete_schedule_ok hl hc]
            exact SortedStore_setSchedules hdm (sortedByStart_sublist hsub hsmem)
        | duplicateMember => rw [delete_schedule_err hl hc (by decide)]; exact hdm
        | memberNotFound => rw [delete_schedule_err hl hc (by decide)]; exact hdm
        | intervalNotFound => rw [delete_schedule_err hl hc (by decide)]; exact hdm
        | indexError => rw [delete_schedule_err hl hc (by decide)]; exact hdm

/-- C3 witness: the invariant holds after a concrete successful
`add_schedule` on a concrete sorted store. -/
theorem C3_sorted_after_mutations_witness :
    SortedStore (add_schedule familyStore "Alice" 0 5).2 :=
  (C3_sorted_after_mutations familyStore "Alice" 0 5 (0, 0) (0, 0) 0
    (by decide)).2.2.1

/-- C4 counterexample: a drag ending at raw hours `(23.6, 24.2)` rounds to
`(24, 24)`; the commit in `src/FamilyscheduleApp/gui/chart_canvas.py` then
forces `end = start + 1` with no re-clamp and commits `(24, 25)`, whose end
exceeds 24 — refuting the claimed re-clamping. -/
theorem C4_counterexample :
    end_drag_commit (118/5) (121/5) = (24, 25) ∧
    (24 : Int) < (end_drag_commit (118/5) (121/5)).2 := by
  have he : end_drag_commit (118/5) (121/5) = (24, 25) := by
    unfold end_drag_commit
    rw [pyRound_tw_six, pyRound_tw_four_pt_two]
    decide
  exact ⟨he, by rw [he]; decide⟩

/-- C4 (amended): at pointer-up both endpoints are rounded to the nearest
whole hour (ties to even); the start is clamped below at 0 and the end above
at 24 (neither endpoint is clamped on its other side), and if `end ≤ start`
after that, `end` is forced to `start + 1` with no re-clamp in
`src/FamilyscheduleApp/gui/chart_canvas.py` — so the committed interval
always satisfies `0 ≤ start < end`, and its end can only exceed 24 in the
forced case `end = start + 1`.  In the older `src/gui/chart_canvas.py` the
forcing (`start := end − 1` for a resize-left drag, `end := start + 1`
otherwise) is followed by a re-clamp of both endpoints, so there the
committed start is never below 0 and the committed end never exceeds 24.
The spec's rounding example holds: raw `(8.6, 17.2)` commits as `(9, 17)`. -/
theorem C4_commit_round_clamp :
    (∀ rawS rawE : ℚ,
      0 ≤ (end_drag_commit rawS rawE).1 ∧
      (end_drag_commit rawS rawE).1 + 1 ≤ (end_drag_commit rawS rawE).2 ∧
      ((end_drag_commit rawS rawE).2 ≤ 24 ∨
        (end_drag_commit rawS rawE).2 = (end_drag_commit rawS rawE).1 + 1)) ∧
    (∀ (mode : DragMode) (rawS rawE : ℚ),
      0 ≤ (end_drag_commit_old mode rawS rawE).1 ∧
      (end_drag_commit_old mode rawS rawE).2 ≤ 24) ∧
    end_drag_commit (43/5) (86/5) = (9, 17) := by
  refine ⟨?_, ?_, ?_⟩
  · intro rawS rawE
    unfold end_drag_commit
    by_cases h : min 24 (pyRound rawE) ≤ max 0 (pyRound rawS)
    · rw [if_pos h]
      refine ⟨le_max_left 0 _, le_refl _, Or.inr rfl⟩
    · rw [if_neg h]
      refine ⟨le_max_left 0 _, by omega, Or.inl (min_le_left 24 _)⟩
  · intro mode rawS rawE
    unfold end_drag_commit_old
    by_cases h : min 24 (pyRound rawE) ≤ max 0 (pyRound rawS)
    · rw [if_pos h]
      cases mode with
      | move => exact ⟨le_max_left 0 _, min_le_left 24 _⟩
      | resizeLeft => exact ⟨le_max_left 0 _, min_le_left 24 _⟩
      | resizeRight => exact ⟨le_max_left 0 _, min_le_left 24 _⟩
    · rw [if_neg h]
      exact ⟨le_max_left 0 _, min_le_left 24 _⟩
  · unfold end_drag_commit
    rw [pyRound_eight_pt_six, pyRound_sevent_pt_two]
    decide

/-- C5: during a move drag every recomputed candidate keeps exactly the
original duration: the snapped start is clamped at 0, the end is start plus
the original duration, and the shift-back at 24 (with its re-clamp of the
start at 0) also preserves the difference, so `end − start` always equals
the original `end − start`; moreover the candidate start is never negative,
and the candidate end only exceeds 24 when the start has been pinned at 0
(a duration longer than the day). -/
theorem C5_move_preserves_duration (raw : ℚ) (orig : HourInterval) :
    (drag_motion_move raw orig).2 - (drag_motion_move raw orig).1 =
      (orig.2 : ℚ) - (orig.1 : ℚ) ∧
    0 ≤ (drag_motion_move raw orig).1 ∧
    ((drag_motion_move raw orig).2 ≤ 24 ∨
      (drag_motion_move raw orig).1 = 0) := by
  unfold drag_motion_move
  by_cases h1 : (24 : ℚ) <
      max 0 ((pyRound (raw / snapInterval) : ℚ) * snapInterval)
        + ((orig.2 : ℚ) - (orig.1 : ℚ))
  · rw [if_pos h1]
    by_cases h2 : (24 : ℚ) - ((orig.2 : ℚ) - (orig.1 : ℚ)) < 0
    · rw [if_pos h2]
      dsimp only
      exact ⟨by ring, le_refl 0, Or.inr rfl⟩
    · rw [if_neg h2]
      dsimp only
      exact ⟨by ring, by linarith, Or.inl (le_refl 24)⟩
  · rw [if_neg h1]
    dsimp only
    exact ⟨by ring, le_max_left 0 _, Or.inl (by linarith)⟩

/-- C9: if the rounded-and-adjusted commit candidate equals the interval
captured at drag start, `end_drag` makes no store call: the `DataManager`
state after pointer-up is exactly the state before it. -/
theorem C9_commit_noop (dm : DataManager) (name : String)
    (old : HourInterval) (oldIndex : Int) (rawS rawE : ℚ)
    (h : end_drag_commit rawS rawE = old) :
    end_drag_store dm name old oldIndex rawS rawE = dm := by
  unfold end_drag_store
  rw [if_pos h]

/-- C9 witness: a pointer-up at raw hours `(9, 17)` over an original
interval `(9, 17)` leaves a concrete store untouched. -/
theorem C9_commit_noop_witness :
    end_drag_store familyStore "Alice" (9, 17) 1 9 17 = familyStore :=
  C9_commit_noop familyStore "Alice" (9, 17) 1 9 17
    (by unfold end_drag_commit; rw [pyRound_nine, pyRound_seventeen]; decide)
